import Mathlib

/-!
Verification of the route-optimization subsystem of the waste2wealth
repository (the POST /optimize-route handler in the backend routes file,
src/unnamed/part_000, lines 1-206).

The handler is embedded shallowly:

* JavaScript numbers occurring in request bodies and JSON responses are
  modelled as exact rationals; real-valued trigonometry in the metrics
  layer uses the real numbers.
* Stop objects are a structure holding the three fields the handler reads
  by name (name, lat, lon) plus an association list for every other
  caller-supplied field, so that the object-spread merges of the handler
  can be modelled key by key.  Payload values are modelled as scalar
  JavaScript values; nested values travel through the spreads in exactly
  the same opaque way.
* The external generative-AI call is a parameter: the handler receives the
  already-JSON.parsed value extracted from the reply text, or none when the
  call failed, no JSON object was found in the text, or JSON.parse threw.
  All three of those source-level events are caught by the same try/catch
  and produce the identical fallback behaviour, so they are collapsed into
  the single value none.
* The source compares Math.sqrt of squared degree-space distances inside
  the nearest-neighbor loop.  The square root is strictly monotone on the
  nonnegative reals, so the comparisons are embedded as the equivalent
  comparisons of the rational squared distances, keeping the loop
  computable; the specification-level predicate NNRoute below is stated
  with the genuine square-root distance and the loop is proved against it.
-/

namespace W2W

/-- Scalar JavaScript values, as stored in caller-supplied payload fields of
a stop object. -/
inductive JsVal where
  | num (q : ℚ)
  | str (s : String)
  | bool (b : Bool)
  | null
  | undef
deriving DecidableEq

/-- JavaScript truthiness of a scalar value: 0, the empty string, false,
null and undefined are falsy. -/
def truthyV : JsVal → Bool
  | JsVal.num q => decide (q ≠ 0)
  | JsVal.str s => decide (s ≠ "")
  | JsVal.bool b => b
  | JsVal.null => false
  | JsVal.undef => false

/-- A parsed JSON value: what JSON.parse produces from the text extracted
out of the external generative service reply. -/
inductive Json where
  | num (q : ℚ)
  | str (s : String)
  | bool (b : Bool)
  | null
  | arr (elems : List Json)
  | obj (fields : List (String × Json))

/-- A stop record from the request body.  name, lat and lon are the fields
the handler reads by name; payload holds every other field of the object
(id, _id, address, quantity, wasteType, phone, pickupDate, pickupTime, and
anything else the caller sent).  A missing lat or lon is none. -/
structure Stop where
  name : JsVal
  lat : Option ℚ
  lon : Option ℚ
  payload : List (String × JsVal)
deriving DecidableEq

/-- The all-absent stop, used as list-indexing default inside the model;
every place it is supplied is guarded by an in-range proof. -/
def emptyStop : Stop := ⟨JsVal.undef, none, none, []⟩

/-- Numeric value of the lat field.  On every path the claims quantify over
the field is present (validation has passed), so the default is never
reached. -/
def qlat (s : Stop) : ℚ := s.lat.getD 0

/-- Numeric value of the lon field, analogous to qlat. -/
def qlon (s : Stop) : ℚ := s.lon.getD 0

/-- Truthiness of an optional numeric field: absent or 0 is falsy. -/
def truthyN : Option ℚ → Bool
  | none => false
  | some q => decide (q ≠ 0)

/-- The per-location validation of the handler
(src/unnamed/part_000 lines 62-69): each location must have truthy lat, lon
and name, otherwise the request is rejected with HTTP 400. -/
def stopOk (loc : Stop) : Bool :=
  truthyN loc.lat && truthyN loc.lon && truthyV loc.name

/-- Key lookup in an object modelled as an association list. -/
def getKey : List (String × JsVal) → String → Option JsVal
  | [], _ => none
  | (k2, v) :: rest, k => if k2 = k then some v else getKey rest k

/-- Key update, as performed by an object-literal spread where a later
entry overrides an earlier one with the same key: any earlier binding of
the key is removed and the new binding appended.  Only getKey-observable
behaviour matters to the model (JavaScript object entry order is not
observed by the handler). -/
def setKey : List (String × JsVal) → String → JsVal → List (String × JsVal)
  | [], k, v => [(k, v)]
  | (k2, v2) :: rest, k, v =>
    if k2 = k then setKey rest k v
    else (k2, v2) :: setKey rest k v

/-- The JavaScript expression a || b over two optional object fields, with
undefined for a doubly-absent result (source: loc.id || loc._id). -/
def jsOr (a b : Option JsVal) : JsVal :=
  match a with
  | some v => if truthyV v then v else b.getD JsVal.undef
  | none => b.getD JsVal.undef

/-- The JavaScript expression field || s for a string default
(source: loc.address || two quotes). -/
def jsOrStr (a : Option JsVal) (s : String) : JsVal :=
  match a with
  | some v => if truthyV v then v else JsVal.str s
  | none => JsVal.str s

/-- The JavaScript chain original.quantity || dataItem.quantity || 0
(src/unnamed/part_000 line 143); dataItem carries no quantity, so the chain
reduces to original.quantity || 0. -/
def origOrZero (a : Option JsVal) : JsVal :=
  match a with
  | some v => if truthyV v then v else JsVal.num 0
  | none => JsVal.num 0

/-- Reading a possibly-absent field for an explicit object-literal entry:
an absent field reads as undefined (source lines 144-147). -/
def undefD (a : Option JsVal) : JsVal := a.getD JsVal.undef

/-- Squared straight-line distance in raw (lat, lon) degree space
(src/unnamed/part_000 lines 29-32).  The source takes Math.sqrt of this
quantity before comparing; the square root is strictly monotone on the
nonnegative reals, so selections by the rooted distance and by this
squared distance coincide, and the squared form is computable over ℚ. -/
def eud2 (a b : Stop) : ℚ :=
  (qlat a - qlat b) * (qlat a - qlat b) + (qlon a - qlon b) * (qlon a - qlon b)

/-- The genuine rooted Euclidean distance in degree space, used to state
the specification-level nearest-neighbor predicate. -/
noncomputable def eudist (a b : Stop) : ℝ := Real.sqrt ((eud2 a b : ℚ) : ℝ)

/-- The forEach scan of the fallback loop (src/unnamed/part_000
lines 28-37): walk the remaining distances keeping the strictly smallest
seen so far, so the earliest index wins ties.  The source starts with
minDist = Infinity and nearestIdx = 0, so after visiting element 0 the
state is always (distance of element 0, index 0); the scan here starts
from that state. -/
def bestIdxFrom : List ℚ → ℕ → ℚ → ℕ → ℕ
  | [], _, _, best => best
  | d :: ds, i, bestD, best =>
    if d < bestD then bestIdxFrom ds (i + 1) d i
    else bestIdxFrom ds (i + 1) bestD best

/-- Index of the nearest unvisited location, exactly as selected by the
source forEach scan. -/
def selectIdx (current : Stop) (rem : List Stop) : ℕ :=
  match rem.map (eud2 current) with
  | [] => 0
  | d :: ds => bestIdxFrom ds 1 d 0

/-- The while loop of fallbackOptimization (src/unnamed/part_000
lines 23-39): repeatedly move the nearest unvisited location to the end of
the route.  The loop runs exactly rem.length times; the fuel argument is
an embedding artifact making the recursion structural and never runs out
when initialized to rem.length. -/
def nnLoopF : ℕ → Stop → List Stop → List Stop
  | 0, _, _ => []
  | _ + 1, _, [] => []
  | fuel + 1, current, r :: rs =>
    (r :: rs).getD (selectIdx current (r :: rs)) emptyStop ::
      nnLoopF fuel ((r :: rs).getD (selectIdx current (r :: rs)) emptyStop)
        ((r :: rs).eraseIdx (selectIdx current (r :: rs)))

/-- fallbackOptimization (src/unnamed/part_000 lines 17-44): lists of at
most 2 locations are returned unchanged, otherwise greedy nearest-neighbor
from the first location. -/
def fallbackOptimization (locations : List Stop) : List Stop :=
  if locations.length ≤ 2 then locations
  else
    match locations with
    | [] => locations
    | s :: rest => s :: nnLoopF rest.length s rest

/-- Property access on a parsed JSON object field list. -/
def objGet : List (String × Json) → String → Option Json
  | [], _ => none
  | (k2, v) :: rest, k => if k2 = k then some v else objGet rest k

/-- geminiResult.optimizedOrder (src/unnamed/part_000 line 132): property
access on the parsed reply.  On a non-object the source reads undefined or
throws a TypeError; both are caught by the surrounding try and produce the
fallback, so both are collapsed to none here. -/
def jGet : Json → String → Option Json
  | Json.obj fields, k => objGet fields k
  | _, _ => none

/-- Array.prototype.map whose body may throw: the first throwing element
aborts the whole map, and the error is caught by the enclosing try. -/
def mapOpt {α β : Type} (f : α → Option β) : List α → Option (List β)
  | [] => some []
  | x :: xs =>
    match f x with
    | none => none
    | some y =>
      match mapOpt f xs with
      | none => none
      | some ys => some (y :: ys)

/-- Whether a JSON value is a number. -/
def jsonIsNum : Json → Bool
  | Json.num _ => true
  | _ => false

/-- Whether a rational JSON number denotes a valid index of an n-element
array: an integer with 0 ≤ q < n. -/
def validIdx (q : ℚ) (n : ℕ) : Prop :=
  q.den = 1 ∧ 0 ≤ q.num ∧ q.num < (n : ℤ)

instance (q : ℚ) (n : ℕ) : Decidable (validIdx q n) := by
  unfold validIdx
  infer_instance

/-- The per-index merge of the Gemini path (src/unnamed/part_000
lines 137-149): spread the original location, overlay the formatted
dataItem entry built from the same index (index, id, name, lat, lon,
address) and then re-assert quantity, wasteType, phone, pickupDate and
pickupTime from the original.  name, lat and lon are overlaid with their
own values, so the structure fields are untouched. -/
def geminiMerge (loc : Stop) (idx : ℕ) : Stop :=
  { name := loc.name
    lat := loc.lat
    lon := loc.lon
    payload :=
      let p0 := setKey loc.payload "index" (JsVal.num (idx : ℚ))
      let p1 := setKey p0 "id" (jsOr (getKey loc.payload "id") (getKey loc.payload "_id"))
      let p2 := setKey p1 "address" (jsOrStr (getKey loc.payload "address") "")
      let p3 := setKey p2 "quantity" (origOrZero (getKey loc.payload "quantity"))
      let p4 := setKey p3 "wasteType" (undefD (getKey loc.payload "wasteType"))
      let p5 := setKey p4 "phone" (undefD (getKey loc.payload "phone"))
      let p6 := setKey p5 "pickupDate" (undefD (getKey loc.payload "pickupDate"))
      setKey p6 "pickupTime" (undefD (getKey loc.payload "pickupTime")) }

/-- locations[idx] followed by the merge (src/unnamed/part_000
lines 137-149).  On an out-of-range, negative or non-integer numeric index
the lookup yields undefined and reading original.quantity throws, which the
enclosing try catches; a non-numeric element is likewise mapped to none
(the model is used under the hypothesis that the reply indices are JSON
numbers). -/
def mapIdxToStop (locations : List Stop) : Json → Option Stop
  | Json.num q =>
    if validIdx q locations.length then
      some (geminiMerge (locations.getD q.num.toNat emptyStop) q.num.toNat)
    else none
  | _ => none

/-- The stop a single valid numeric index is mapped to; total companion of
mapIdxToStop used to state what a successful mapping produced. -/
def mergeOfIdx (locs : List Stop) : Json → Stop
  | Json.num q => geminiMerge (locs.getD q.num.toNat emptyStop) q.num.toNat
  | _ => emptyStop

/-- The guarded Gemini attempt (src/unnamed/part_000 lines 71-152): absent
credential, failed call, missing or non-array optimizedOrder field, or a
throwing index mapping all end in the catch block, i.e. none.  A successful
attempt yields the merged reordered stops. -/
def aiAttempt (key : Bool) (ai : Option Json) (locations : List Stop) :
    Option (List Stop) :=
  if key then
    match ai with
    | none => none
    | some j =>
      match jGet j "optimizedOrder" with
      | some (Json.arr idxs) => mapOpt (mapIdxToStop locations) idxs
      | _ => none
  else none

/-- Which strategy produced the order: the source strings gemini and
fallback. -/
inductive Method where
  | gemini
  | fallback
deriving DecidableEq

/-- The two 400-validation failures of the handler: fewer than 2 locations
(or no array at all), and a location missing name, lat or lon. -/
inductive VErr where
  | tooFew
  | missingField
deriving DecidableEq

/-- Outcome of the handler before metrics are attached: 403 for
non-admins, 400 for validation failures, otherwise the chosen method and
the reordered (not yet annotated) stops. -/
inductive CoreResult where
  | forbidden
  | badRequest (e : VErr)
  | ok (m : Method) (ord : List Stop)
deriving DecidableEq

/-- Control flow of the POST /optimize-route handler up to the metrics
block (src/unnamed/part_000 lines 46-159): admin check, the two
validations, the guarded Gemini attempt and the fallback.  Nothing after
validation can fail, so the outer catch (HTTP 500) is unreachable and has
no constructor here. -/
def optimizeCore (isAdmin key : Bool) (ai : Option Json)
    (body : Option (List Stop)) : CoreResult :=
  if isAdmin then
    match body with
    | none => CoreResult.badRequest VErr.tooFew
    | some locations =>
      if locations.length < 2 then CoreResult.badRequest VErr.tooFew
      else
        if locations.all stopOk then
          match aiAttempt key ai locations with
          | some ord => CoreResult.ok Method.gemini ord
          | none => CoreResult.ok Method.fallback (fallbackOptimization locations)
        else CoreResult.badRequest VErr.missingField
  else CoreResult.forbidden

/-- Math.atan2 on real arguments (sign conventions of the JavaScript
function for nonzero/zero arguments; signed zeros do not exist in ℝ). -/
noncomputable def atan2 (y x : ℝ) : ℝ :=
  if 0 < x then Real.arctan (y / x)
  else if x < 0 then
    if 0 ≤ y then Real.arctan (y / x) + Real.pi
    else Real.arctan (y / x) - Real.pi
  else
    if 0 < y then Real.pi / 2
    else if y < 0 then -(Real.pi / 2)
    else 0

/-- The intermediate Haversine quantity a of calculateDistance
(src/unnamed/part_000 lines 164-169). -/
noncomputable def havA (a b : Stop) : ℝ :=
  let dLat := ((qlat b : ℝ) - (qlat a : ℝ)) * Real.pi / 180
  let dLon := ((qlon b : ℝ) - (qlon a : ℝ)) * Real.pi / 180
  Real.sin (dLat / 2) * Real.sin (dLat / 2) +
    Real.cos ((qlat a : ℝ) * Real.pi / 180) *
        Real.cos ((qlat b : ℝ) * Real.pi / 180) *
      (Real.sin (dLon / 2) * Real.sin (dLon / 2))

/-- calculateDistance (src/unnamed/part_000 lines 162-172): Haversine
great-circle distance with Earth radius 6371 km. -/
noncomputable def calculateDistance (a b : Stop) : ℝ :=
  6371 * (2 * atan2 (Real.sqrt (havA a b)) (Real.sqrt (1 - havA a b)))

/-- The metrics loop (src/unnamed/part_000 lines 174-177): sum of
calculateDistance over consecutive pairs. -/
noncomputable def pathDistance : List Stop → ℝ
  | a :: b :: rest => calculateDistance a b + pathDistance (b :: rest)
  | _ => 0

/-- Math.round(x * 100) / 100: rounding to 2 decimals as in the response
totalDistance field.  Mathlib round is the floor of x + 1/2, which agrees
with Math.round everywhere, halves included. -/
noncomputable def round2 (x : ℝ) : ℝ := ((round (x * 100) : ℤ) : ℝ) / 100

/-- The normalized response of the handler (src/unnamed/part_000
lines 179-197). -/
structure RouteResult where
  method : Method
  order : List Stop
  totalStops : ℕ
  totalDistance : ℝ
  estimatedTime : ℤ
  timeSaved : ℤ

/-- The stopNumber augmentation of the response map
(src/unnamed/part_000 lines 187-190). -/
def setStopNum (s : Stop) (n : ℕ) : Stop :=
  { s with payload := setKey s.payload "stopNumber" (JsVal.num (n : ℚ)) }

/-- optimizedOrder.map((loc, idx) => spread loc with stopNumber idx + 1):
the first stop gets stopNumber i + 1 when the scan starts at i. -/
def annotateAll : ℕ → List Stop → List Stop
  | _, [] => []
  | i, s :: rest => setStopNum s (i + 1) :: annotateAll (i + 1) rest

/-- The metrics block plus response assembly (src/unnamed/part_000
lines 161-197): metrics are recomputed from the chosen order via
calculateDistance; the time estimate uses the unrounded total at 30 km/h
plus 5 minutes per stop; timeSaved is Math.round(length * 2). -/
noncomputable def finalize (m : Method) (ord : List Stop) : RouteResult :=
  { method := m
    order := annotateAll 0 ord
    totalStops := ord.length
    totalDistance := round2 (pathDistance ord)
    estimatedTime := round (pathDistance ord / 30 * 60 + (ord.length : ℝ) * 5)
    timeSaved := round ((ord.length : ℝ) * 2) }

/-- The full HTTP outcome of the handler. -/
inductive ApiResult where
  | forbidden
  | badRequest (e : VErr)
  | ok (r : RouteResult)

/-- The complete POST /optimize-route handler: control flow plus metrics
and response assembly. -/
noncomputable def optimizeRoute (isAdmin key : Bool) (ai : Option Json)
    (body : Option (List Stop)) : ApiResult :=
  match optimizeCore isAdmin key ai body with
  | CoreResult.forbidden => ApiResult.forbidden
  | CoreResult.badRequest e => ApiResult.badRequest e
  | CoreResult.ok m ord => ApiResult.ok (finalize m ord)

/-- The order of a successful response, the empty list otherwise. -/
def resOrder : ApiResult → List Stop
  | ApiResult.ok r => r.order
  | _ => []

/-- The method tag of a successful response. -/
def resMethod : ApiResult → Option Method
  | ApiResult.ok r => some r.method
  | _ => none

/-- Stop identity as used by the permutation claims: display name plus
coordinates, the three fields both strategies carry through unchanged. -/
def identOf (s : Stop) : JsVal × Option ℚ × Option ℚ := (s.name, s.lat, s.lon)

/-- The payload keys the handler itself computes or rewrites on some path:
index, id and address by the Gemini dataItem overlay, quantity by the
|| 0 default, stopNumber by the response map. -/
def computedKeys : List String :=
  ["index", "id", "address", "quantity", "stopNumber"]

/-- Modelled from the spec (section 3, data model): a well-formed stop has
finite in-range coordinates, latitude in [-90, 90] and longitude in
[-180, 180]. -/
def wellFormed (s : Stop) : Prop :=
  (∃ q, s.lat = some q ∧ -90 ≤ q ∧ q ≤ 90) ∧
    (∃ q, s.lon = some q ∧ -180 ≤ q ∧ q ≤ 180)

/-- Modelled from the spec (section 4.2, step 3): position i is the stop of
rem nearest to current in rooted degree-space Euclidean distance, ties
broken by the earliest index: every earlier index is strictly farther. -/
def IsNearestChoice (current : Stop) (rem : List Stop) (i : ℕ) : Prop :=
  i < rem.length ∧
    (∀ j, j < rem.length →
      eudist current (rem.getD i emptyStop) ≤ eudist current (rem.getD j emptyStop)) ∧
    (∀ j, j < i →
      eudist current (rem.getD i emptyStop) < eudist current (rem.getD j emptyStop))

/-- Modelled from the spec (section 4.2): the greedy nearest-neighbor
relation: out is obtained from rem by repeatedly moving the nearest
remaining stop (earliest index on ties) to the route, measuring from the
last stop chosen (current). -/
inductive NNRoute : Stop → List Stop → List Stop → Prop where
  | done (current : Stop) : NNRoute current [] []
  | pick (current : Stop) (rem : List Stop) (i : ℕ) (rest : List Stop) :
      IsNearestChoice current rem i →
      NNRoute (rem.getD i emptyStop) (rem.eraseIdx i) rest →
      NNRoute current rem (rem.getD i emptyStop :: rest)

/-- A concrete valid stop used by witness and counterexample instances. -/
def demoA : Stop := ⟨JsVal.str "A", some 1, some 1, []⟩

/-- A second concrete valid stop. -/
def demoB : Stop := ⟨JsVal.str "B", some 2, some 2, []⟩

/-- A third concrete valid stop, far from the first two. -/
def demoC : Stop := ⟨JsVal.str "C", some 10, some 10, []⟩

/-- A concrete valid stop carrying a caller-supplied stopNumber payload
field. -/
def demoS : Stop := ⟨JsVal.str "S", some 1, some 1, [("stopNumber", JsVal.num 99)]⟩

/-- A parsed AI reply whose optimizedOrder swaps the two stops: in-range
indices not starting at 0. -/
def aiSwap : Json := Json.obj [("optimizedOrder", Json.arr [Json.num 1, Json.num 0])]

/-- A parsed AI reply whose optimizedOrder repeats index 0: in-range
indices that are not a permutation. -/
def aiDup : Json := Json.obj [("optimizedOrder", Json.arr [Json.num 0, Json.num 0])]

/-- A parsed AI reply containing an out-of-range index. -/
def aiOOR : Json := Json.obj [("optimizedOrder", Json.arr [Json.num 5, Json.num 0])]

lemma optimizeCore_valid (key : Bool) (ai : Option Json) (locs : List Stop)
    (hlen : 2 ≤ locs.length) (hok : locs.all stopOk = true) :
    optimizeCore true key ai (some locs) =
      match aiAttempt key ai locs with
      | some ord => CoreResult.ok Method.gemini ord
      | none => CoreResult.ok Method.fallback (fallbackOptimization locs) := by
  unfold optimizeCore
  simp [hok, Nat.not_lt.mpr hlen]

lemma optimizeRoute_valid (key : Bool) (ai : Option Json) (locs : List Stop)
    (hlen : 2 ≤ locs.length) (hok : locs.all stopOk = true) :
    optimizeRoute true key ai (some locs) =
      match aiAttempt key ai locs with
      | some ord => ApiResult.ok (finalize Method.gemini ord)
      | none => ApiResult.ok (finalize Method.fallback (fallbackOptimization locs)) := by
  unfold optimizeRoute
  rw [optimizeCore_valid key ai locs hlen hok]
  cases aiAttempt key ai locs <;> rfl

/-- Claim C1: once validation passes (at least 2 locations, each with
truthy name, lat and lon) the endpoint always answers with a successful
RouteResult; in particular, whenever the guarded Gemini attempt fails at
any of its steps (missing credential, failed call, unparseable or
schema-invalid reply, throwing index mapping — all the ways aiAttempt can
be none) the response is exactly the finalized nearest-neighbor fallback
order tagged with the fallback method. -/
theorem c1_fallback_guarantee (key : Bool) (ai : Option Json)
    (locs : List Stop) (hlen : 2 ≤ locs.length)
    (hok : locs.all stopOk = true) :
    (∃ r, optimizeRoute true key ai (some locs) = ApiResult.ok r) ∧
      (aiAttempt key ai locs = none →
        optimizeRoute true key ai (some locs) =
          ApiResult.ok (finalize Method.fallback (fallbackOptimization locs))) := by
  rw [optimizeRoute_valid key ai locs hlen hok]
  cases hA : aiAttempt key ai locs with
  | none => exact ⟨⟨_, rfl⟩, fun _ => rfl⟩
  | some ord => exact ⟨⟨_, rfl⟩, fun hc => Option.noConfusion hc⟩

/-- Witness for C1 at a concrete valid two-stop request with no API key
configured. -/
theorem c1_fallback_guarantee_w :
    optimizeRoute true false none (some [demoA, demoB]) =
      ApiResult.ok (finalize Method.fallback (fallbackOptimization [demoA, demoB])) :=
  (c1_fallback_guarantee false none [demoA, demoB] (by decide) (by decide)).2 rfl

/-- Claim C6: a request with fewer than 2 locations, or containing a
location missing name, lat or lon, is answered with the corresponding 400
validation error; no RouteResult is produced and neither strategy runs
(the handler returns before either is reached). -/
theorem c6_validation_boundary (key : Bool) (ai : Option Json) :
    (∀ locs : List Stop, locs.length < 2 →
      optimizeRoute true key ai (some locs) = ApiResult.badRequest VErr.tooFew) ∧
      (∀ locs : List Stop, ∀ loc ∈ locs, 2 ≤ locs.length →
        (loc.lat = none ∨ loc.lon = none ∨ loc.name = JsVal.undef) →
        optimizeRoute true key ai (some locs) =
          ApiResult.badRequest VErr.missingField) := by
  constructor
  · intro locs hlen
    unfold optimizeRoute optimizeCore
    simp [hlen]
  · intro locs loc hmem hlen hmiss
    have hbad : stopOk loc = false := by
      rcases hmiss with h | h | h <;>
        simp [stopOk, truthyN, truthyV, h]
    have hall : ¬ locs.all stopOk = true := by
      intro h
      have := List.all_eq_true.mp h loc hmem
      rw [hbad] at this
      cases this
    unfold optimizeRoute optimizeCore
    simp [Nat.not_lt.mpr hlen, hall]

/-- Witness for C6: a one-stop request and a request whose second stop has
no lat are both rejected with 400. -/
theorem c6_validation_boundary_w :
    optimizeRoute true false none (some [demoA]) =
        ApiResult.badRequest VErr.tooFew ∧
      optimizeRoute true false none
          (some [demoA, ⟨JsVal.str "X", none, some 3, []⟩]) =
        ApiResult.badRequest VErr.missingField :=
  ⟨(c6_validation_boundary false none).1 [demoA] (by decide),
    (c6_validation_boundary false none).2 [demoA, ⟨JsVal.str "X", none, some 3, []⟩]
      ⟨JsVal.str "X", none, some 3, []⟩ (by decide) (by decide) (Or.inl rfl)⟩

/-- Claim C9: the per-location check uses JavaScript truthiness, so a stop
whose latitude or longitude is the in-range number 0, or whose name is the
empty string, is rejected with the 400 validation error exactly like a
missing field, and no RouteResult is produced. -/
theorem c9_falsy_rejected (key : Bool) (ai : Option Json) (locs : List Stop)
    (loc : Stop) (hmem : loc ∈ locs) (hlen : 2 ≤ locs.length)
    (h : loc.lat = some 0 ∨ loc.lon = some 0 ∨ loc.name = JsVal.str "") :
    optimizeRoute true key ai (some locs) =
      ApiResult.badRequest VErr.missingField := by
  have hbad : stopOk loc = false := by
    rcases h with h | h | h <;>
      simp [stopOk, truthyN, truthyV, h]
  have hall : ¬ locs.all stopOk = true := by
    intro hx
    have := List.all_eq_true.mp hx loc hmem
    rw [hbad] at this
    cases this
  unfold optimizeRoute optimizeCore
  simp [Nat.not_lt.mpr hlen, hall]

/-- Witness for C9: a request whose second stop sits at latitude 0 is
rejected even though 0 is a well-formed coordinate. -/
theorem c9_falsy_rejected_w :
    optimizeRoute true false none
        (some [demoA, ⟨JsVal.str "Z", some 0, some 3, []⟩]) =
      ApiResult.badRequest VErr.missingField :=
  c9_falsy_rejected false none [demoA, ⟨JsVal.str "Z", some 0, some 3, []⟩]
    ⟨JsVal.str "Z", some 0, some 3, []⟩ (by decide) (by decide) (Or.inl rfl)

lemma calculateDistance_congr {a b c d : Stop} (h1 : a.lat = c.lat)
    (h2 : a.lon = c.lon) (h3 : b.lat = d.lat) (h4 : b.lon = d.lon) :
    calculateDistance a b = calculateDistance c d := by
  unfold calculateDistance havA qlat qlon
  rw [h1, h2, h3, h4]

lemma pathDistance_annotateAll :
    ∀ (l : List Stop) (i : ℕ), pathDistance (annotateAll i l) = pathDistance l
  | [], _ => rfl
  | [_], _ => rfl
  | a :: b :: t, i => by
    have ih := pathDistance_annotateAll (b :: t) (i + 1)
    simp only [annotateAll] at ih ⊢
    simp only [pathDistance] at ih ⊢
    rw [ih]
    congr 1

lemma length_annotateAll :
    ∀ (i : ℕ) (l : List Stop), (annotateAll i l).length = l.length
  | _, [] => rfl
  | i, _ :: rest => by
    simp [annotateAll, length_annotateAll (i + 1) rest]

/-- Claim C5: every returned RouteResult carries metrics recomputed from
the returned order (never read out of the AI reply): totalDistance is the
rounded-to-2-decimals sum of Haversine distances over consecutive pairs of
the order, estimatedTime is Math.round of that sum over 30 km/h in minutes
plus 5 minutes per stop, timeSaved is Math.round(2n), and totalStops is
the length n of the returned order. -/
theorem c5_metrics_recomputed (adm key : Bool) (ai : Option Json)
    (body : Option (List Stop)) (r : RouteResult)
    (h : optimizeRoute adm key ai body = ApiResult.ok r) :
    r.totalDistance = round2 (pathDistance r.order) ∧
      r.estimatedTime =
        round (pathDistance r.order / 30 * 60 + (r.order.length : ℝ) * 5) ∧
      r.timeSaved = round ((r.order.length : ℝ) * 2) ∧
      r.totalStops = r.order.length := by
  unfold optimizeRoute at h
  cases hc : optimizeCore adm key ai body with
  | forbidden => rw [hc] at h; cases h
  | badRequest e => rw [hc] at h; cases h
  | ok m ord =>
    rw [hc] at h
    have hr : r = finalize m ord := by
      cases h
      rfl
    subst hr
    refine ⟨?_, ?_, ?_, ?_⟩ <;>
      simp [finalize, pathDistance_annotateAll, length_annotateAll]

/-- Witness for C5 at a concrete fallback response. -/
theorem c5_metrics_recomputed_w :
    (finalize Method.fallback (fallbackOptimization [demoA, demoB])).totalStops =
      (finalize Method.fallback (fallbackOptimization [demoA, demoB])).order.length :=
  (c5_metrics_recomputed true false none (some [demoA, demoB])
    (finalize Method.fallback (fallbackOptimization [demoA, demoB])) rfl).2.2.2

lemma atan2_nonneg {y x : ℝ} (hy : 0 ≤ y) (hx : 0 ≤ x) : 0 ≤ atan2 y x := by
  unfold atan2
  split_ifs with h1 h2 h3 h4 <;>
    first
      | (rw [← Real.arctan_zero]
         exact Real.arctan_strictMono.monotone (div_nonneg hy (le_of_lt h1)))
      | linarith [Real.pi_pos]

lemma calculateDistance_nonneg (a b : Stop) : 0 ≤ calculateDistance a b := by
  unfold calculateDistance
  have h := atan2_nonneg (Real.sqrt_nonneg (havA a b)) (Real.sqrt_nonneg (1 - havA a b))
  linarith

lemma havA_comm (a b : Stop) : havA a b = havA b a := by
  unfold havA
  have h : ∀ x y : ℝ,
      Real.sin ((x - y) * Real.pi / 180 / 2) * Real.sin ((x - y) * Real.pi / 180 / 2) =
        Real.sin ((y - x) * Real.pi / 180 / 2) * Real.sin ((y - x) * Real.pi / 180 / 2) := by
    intro x y
    have hx : (x - y) * Real.pi / 180 / 2 = -((y - x) * Real.pi / 180 / 2) := by ring
    rw [hx, Real.sin_neg]
    ring
  simp only []
  rw [h ((qlat b : ℝ)) ((qlat a : ℝ)), h ((qlon b : ℝ)) ((qlon a : ℝ))]
  ring

lemma calculateDistance_comm (a b : Stop) :
    calculateDistance a b = calculateDistance b a := by
  unfold calculateDistance
  rw [havA_comm]

lemma havA_self (a : Stop) : havA a a = 0 := by
  unfold havA
  simp

lemma calculateDistance_self (a : Stop) : calculateDistance a a = 0 := by
  unfold calculateDistance
  rw [havA_self, Real.sqrt_zero, sub_zero, Real.sqrt_one]
  unfold atan2
  rw [if_pos one_pos]
  norm_num [Real.arctan_zero]

/-- Claim C8: calculateDistance is the Haversine great-circle distance
with Earth radius 6371 km, and on well-formed finite coordinates it is
nonnegative, symmetric, and zero between a point and itself. -/
theorem c8_haversine_props (a b : Stop)
    (_ha : wellFormed a) (_hb : wellFormed b) :
    0 ≤ calculateDistance a b ∧
      calculateDistance a b = calculateDistance b a ∧
      calculateDistance a a = 0 :=
  ⟨calculateDistance_nonneg a b, calculateDistance_comm a b,
    calculateDistance_self a⟩

/-- Witness for C8 at two concrete well-formed stops. -/
theorem c8_haversine_props_w :
    0 ≤ calculateDistance demoA demoB ∧
      calculateDistance demoA demoB = calculateDistance demoB demoA ∧
      calculateDistance demoA demoA = 0 :=
  c8_haversine_props demoA demoB
    ⟨⟨1, rfl, by norm_num, by norm_num⟩, ⟨1, rfl, by norm_num, by norm_num⟩⟩
    ⟨⟨2, rfl, by norm_num, by norm_num⟩, ⟨2, rfl, by norm_num, by norm_num⟩⟩

lemma bestIdxFrom_spec :
    ∀ (ds D : List ℚ) (i best : ℕ) (bestD : ℚ),
      D.drop i = ds → i ≤ D.length → best < i →
      bestD = D.getD best 0 →
      (∀ j, j < i → bestD ≤ D.getD j 0) →
      (∀ j, j < best → bestD < D.getD j 0) →
      bestIdxFrom ds i bestD best < D.length ∧
        (∀ j, j < D.length →
          D.getD (bestIdxFrom ds i bestD best) 0 ≤ D.getD j 0) ∧
        (∀ j, j < bestIdxFrom ds i bestD best →
          D.getD (bestIdxFrom ds i bestD best) 0 < D.getD j 0) := by
  intro ds
  induction ds with
  | nil =>
    intro D i best bestD hdrop hlen hbest hbD hle hlt
    have hi : D.length ≤ i := List.drop_eq_nil_iff.mp hdrop
    simp only [bestIdxFrom]
    refine ⟨by omega, ?_, ?_⟩
    · intro j hj
      rw [← hbD]
      exact hle j (by omega)
    · intro j hj
      rw [← hbD]
      exact hlt j hj
  | cons d ds ih =>
    intro D i best bestD hdrop hlen hbest hbD hle hlt
    have hi : i < D.length := by
      by_contra hx
      rw [List.drop_eq_nil_iff.mpr (by omega)] at hdrop
      cases hdrop
    have hcons : D.drop i = D[i] :: D.drop (i + 1) := List.drop_eq_getElem_cons hi
    rw [hdrop] at hcons
    have hgd : D.getD i 0 = D[i] := List.getD_eq_getElem D 0 hi
    injection hcons with hd hds
    simp only [bestIdxFrom]
    split_ifs with hcmp
    · refine ih D (i + 1) i d hds.symm (by omega) (by omega) (by rw [hd, hgd])
        ?_ ?_
      · intro j hj
        rcases Nat.lt_succ_iff_lt_or_eq.mp hj with h | h
        · exact le_of_lt (lt_of_lt_of_le hcmp (hle j h))
        · subst h
          rw [hd, hgd]
      · intro j hj
        exact lt_of_lt_of_le hcmp (hle j hj)
    · refine ih D (i + 1) best bestD hds.symm (by omega) (by omega) hbD ?_ hlt
      intro j hj
      rcases Nat.lt_succ_iff_lt_or_eq.mp hj with h | h
      · exact hle j h
      · subst h
        rw [hgd, ← hd]
        exact not_lt.mp hcmp

lemma getD_map_eud2 (c : Stop) (l : List Stop) (j : ℕ) (hj : j < l.length) :
    (l.map (eud2 c)).getD j 0 = eud2 c (l.getD j emptyStop) := by
  rw [List.getD_eq_getElem _ _ (by simpa using hj),
    List.getD_eq_getElem _ _ hj, List.getElem_map]

lemma selectIdx_spec (c r : Stop) (rs : List Stop) :
    selectIdx c (r :: rs) < (r :: rs).length ∧
      (∀ j, j < (r :: rs).length →
        eud2 c ((r :: rs).getD (selectIdx c (r :: rs)) emptyStop) ≤
          eud2 c ((r :: rs).getD j emptyStop)) ∧
      (∀ j, j < selectIdx c (r :: rs) →
        eud2 c ((r :: rs).getD (selectIdx c (r :: rs)) emptyStop) <
          eud2 c ((r :: rs).getD j emptyStop)) := by
  have hsel : selectIdx c (r :: rs) =
      bestIdxFrom (rs.map (eud2 c)) 1 (eud2 c r) 0 := rfl
  have hD : ((r :: rs).map (eud2 c)).drop 1 = rs.map (eud2 c) := rfl
  have h := bestIdxFrom_spec (rs.map (eud2 c)) ((r :: rs).map (eud2 c)) 1 0
    (eud2 c r) hD (by simp) (by omega) (by simp) ?_ ?_
  · obtain ⟨h1, h2, h3⟩ := h
    rw [← hsel] at h1 h2 h3
    rw [List.length_map] at h1
    refine ⟨h1, ?_, ?_⟩
    · intro j hj
      have := h2 j (by simpa using hj)
      rwa [getD_map_eud2 c _ _ h1, getD_map_eud2 c _ _ hj] at this
    · intro j hj
      have := h3 j hj
      rwa [getD_map_eud2 c _ _ h1,
        getD_map_eud2 c _ _ (lt_trans hj h1)] at this
  · intro j hj
    have hj0 : j = 0 := by omega
    subst hj0
    simp
  · intro j hj
    omega

lemma eud2_nonneg (a b : Stop) : 0 ≤ eud2 a b := by
  unfold eud2
  have h1 := mul_self_nonneg (qlat a - qlat b)
  have h2 := mul_self_nonneg (qlon a - qlon b)
  linarith

lemma eudist_le_of {c a b : Stop} (h : eud2 c a ≤ eud2 c b) :
    eudist c a ≤ eudist c b := by
  unfold eudist
  exact Real.sqrt_le_sqrt (by exact_mod_cast h)

lemma eudist_lt_of {c a b : Stop} (h : eud2 c a < eud2 c b) :
    eudist c a < eudist c b := by
  unfold eudist
  refine Real.sqrt_lt_sqrt ?_ ?_
  · exact_mod_cast eud2_nonneg c a
  · exact_mod_cast h

lemma selectIdx_isNearest (c r : Stop) (rs : List Stop) :
    IsNearestChoice c (r :: rs) (selectIdx c (r :: rs)) := by
  obtain ⟨h1, h2, h3⟩ := selectIdx_spec c r rs
  exact ⟨h1, fun j hj => eudist_le_of (h2 j hj),
    fun j hj => eudist_lt_of (h3 j hj)⟩

lemma nnLoopF_NNRoute : ∀ (fuel : ℕ) (c : Stop) (rem : List Stop),
    rem.length ≤ fuel → NNRoute c rem (nnLoopF fuel c rem) := by
  intro fuel
  induction fuel with
  | zero =>
    intro c rem hlen
    have h : rem = [] := List.length_eq_zero.mp (Nat.le_zero.mp hlen)
    subst h
    exact NNRoute.done c
  | succ f ih =>
    intro c rem hlen
    cases rem with
    | nil => exact NNRoute.done c
    | cons r rs =>
      simp only [nnLoopF]
      refine NNRoute.pick c (r :: rs) (selectIdx c (r :: rs)) _
        (selectIdx_isNearest c r rs) ?_
      apply ih
      have hsel := (selectIdx_spec c r rs).1
      rw [List.length_eraseIdx]
      simp only [if_pos hsel]
      simp only [List.length_cons] at hlen ⊢
      omega

lemma getD_cons_eraseIdx_perm (l : List Stop) (i : ℕ) (hi : i < l.length) :
    List.Perm (l.getD i emptyStop :: l.eraseIdx i) l := by
  rw [List.getD_eq_getElem _ _ hi, List.eraseIdx_eq_take_drop_succ]
  have hl : l = l.take i ++ l[i] :: l.drop (i + 1) := by
    conv_lhs => rw [← List.take_append_drop i l]
    rw [List.drop_eq_getElem_cons hi]
  have h2 : List.Perm (l[i] :: (l.take i ++ l.drop (i + 1)))
      (l.take i ++ l[i] :: l.drop (i + 1)) := List.perm_middle.symm
  rw [← hl] at h2
  exact h2

lemma nnLoopF_perm : ∀ (fuel : ℕ) (c : Stop) (rem : List Stop),
    rem.length ≤ fuel → List.Perm (nnLoopF fuel c rem) rem := by
  intro fuel
  induction fuel with
  | zero =>
    intro c rem hlen
    have h : rem = [] := List.length_eq_zero.mp (Nat.le_zero.mp hlen)
    subst h
    exact List.Perm.refl _
  | succ f ih =>
    intro c rem hlen
    cases rem with
    | nil => exact List.Perm.refl _
    | cons r rs =>
      simp only [nnLoopF]
      have hsel := (selectIdx_spec c r rs).1
      have hrec := ih ((r :: rs).getD (selectIdx c (r :: rs)) emptyStop)
        ((r :: rs).eraseIdx (selectIdx c (r :: rs)))
        (by
          rw [List.length_eraseIdx]
          simp only [if_pos hsel]
          simp only [List.length_cons] at hlen ⊢
          omega)
      exact (List.Perm.cons _ hrec).trans
        (getD_cons_eraseIdx_perm (r :: rs) _ hsel)

/-- Claim C4: the fallback route builder returns a list of at most 2 stops
unchanged, and for longer lists implements greedy nearest-neighbor exactly
as specified: starting from the first stop it repeatedly appends the
remaining stop at minimum rooted Euclidean distance in raw (lat, lon)
degree space from the last chosen stop, breaking ties by the earliest
index in the remaining list. -/
theorem c4_nearest_neighbor :
    (∀ stops : List Stop, stops.length ≤ 2 →
      fallbackOptimization stops = stops) ∧
      (∀ (s : Stop) (rest : List Stop), 2 < (s :: rest).length →
        fallbackOptimization (s :: rest) = s :: nnLoopF rest.length s rest ∧
          NNRoute s rest (nnLoopF rest.length s rest)) := by
  constructor
  · intro stops h
    unfold fallbackOptimization
    rw [if_pos h]
  · intro s rest h
    refine ⟨?_, nnLoopF_NNRoute rest.length s rest (le_refl _)⟩
    unfold fallbackOptimization
    rw [if_neg (by omega)]

/-- Witness for C4: a 2-stop list is untouched; on the 3-stop list A, C, B
the greedy loop picks B before C, and the route equation of the theorem
instantiates to that concrete input. -/
theorem c4_nearest_neighbor_w :
    fallbackOptimization [demoA, demoB] = [demoA, demoB] ∧
      fallbackOptimization [demoA, demoC, demoB] =
        demoA :: nnLoopF 2 demoA [demoC, demoB] ∧
      nnLoopF 2 demoA [demoC, demoB] = [demoB, demoC] := by
  refine ⟨c4_nearest_neighbor.1 [demoA, demoB] (by decide),
    (c4_nearest_neighbor.2 demoA [demoC, demoB] (by decide)).1, ?_⟩
  norm_num [nnLoopF, selectIdx, bestIdxFrom, eud2, qlat, qlon,
    demoA, demoB, demoC, emptyStop, List.eraseIdx]

lemma mapOpt_eq_some_of_forall {α β : Type} {f : α → Option β} {g : α → β} :
    ∀ {l : List α}, (∀ x ∈ l, f x = some (g x)) → mapOpt f l = some (l.map g)
  | [], _ => rfl
  | x :: xs, h => by
    have hx := h x (List.mem_cons_self x xs)
    have hxs := mapOpt_eq_some_of_forall (fun y hy => h y (List.mem_cons_of_mem x hy))
    simp only [mapOpt, hx, hxs, List.map_cons]

lemma mapOpt_none_of_mem {α β : Type} {f : α → Option β} :
    ∀ {l : List α} {x : α}, x ∈ l → f x = none → mapOpt f l = none := by
  intro l
  induction l with
  | nil => intro x hx; cases hx
  | cons y ys ih =>
    intro x hx hfx
    rcases List.mem_cons.mp hx with h | h
    · subst h
      simp only [mapOpt, hfx]
    · simp only [mapOpt]
      cases hfy : f y with
      | none => rfl
      | some v => rw [ih h hfx]

lemma mapOpt_mem {α β : Type} {f : α → Option β} :
    ∀ {l : List α} {out : List β}, mapOpt f l = some out →
      ∀ y ∈ out, ∃ x ∈ l, f x = some y := by
  intro l
  induction l with
  | nil =>
    intro out h y hy
    cases h
    cases hy
  | cons z zs ih =>
    intro out h y hy
    simp only [mapOpt] at h
    cases hfz : f z with
    | none => rw [hfz] at h; cases h
    | some v =>
      rw [hfz] at h
      cases hrec : mapOpt f zs with
      | none => rw [hrec] at h; cases h
      | some vs =>
        rw [hrec] at h
        cases h
        rcases List.mem_cons.mp hy with h2 | h2
        · exact ⟨z, List.mem_cons_self z zs, h2 ▸ hfz⟩
        · obtain ⟨x, hx, hfx⟩ := ih hrec y h2
          exact ⟨x, List.mem_cons_of_mem z hx, hfx⟩

lemma mapOpt_forall_some {α β : Type} {f : α → Option β} :
    ∀ {l : List α} {out : List β}, mapOpt f l = some out →
      ∀ x ∈ l, ∃ y, f x = some y := by
  intro l
  induction l with
  | nil => intro out _ x hx; cases hx
  | cons z zs ih =>
    intro out h x hx
    simp only [mapOpt] at h
    cases hfz : f z with
    | none => rw [hfz] at h; cases h
    | some v =>
      rw [hfz] at h
      cases hrec : mapOpt f zs with
      | none => rw [hrec] at h; cases h
      | some vs =>
        rcases List.mem_cons.mp hx with h2 | h2
        · exact ⟨v, h2 ▸ hfz⟩
        · exact ih hrec x h2

lemma mapOpt_head {α β : Type} {f : α → Option β} {x : α} {xs : List α}
    {out : List β} (h : mapOpt f (x :: xs) = some out) :
    ∃ y ys, out = y :: ys ∧ f x = some y := by
  simp only [mapOpt] at h
  cases hfx : f x with
  | none => rw [hfx] at h; cases h
  | some v =>
    rw [hfx] at h
    cases hrec : mapOpt f xs with
    | none => rw [hrec] at h; cases h
    | some vs =>
      rw [hrec] at h
      cases h
      exact ⟨v, vs, rfl, rfl⟩

lemma getKey_setKey_same :
    ∀ (p : List (String × JsVal)) (k : String) (v : JsVal),
      getKey (setKey p k v) k = some v
  | [], k, v => by simp [setKey, getKey]
  | (k2, v2) :: rest, k, v => by
    simp only [setKey]
    by_cases hk2 : k2 = k
    · rw [if_pos hk2]
      exact getKey_setKey_same rest k v
    · rw [if_neg hk2]
      simp only [getKey]
      rw [if_neg hk2]
      exact getKey_setKey_same rest k v

lemma getKey_setKey_other :
    ∀ (p : List (String × JsVal)) (k : String) (v : JsVal) (k2 : String),
      k2 ≠ k → getKey (setKey p k v) k2 = getKey p k2
  | [], k, v, k2, h => by
    simp only [setKey, getKey]
    rw [if_neg (fun hx => h hx.symm)]
  | (k3, v3) :: rest, k, v, k2, h => by
    simp only [setKey]
    by_cases hk3 : k3 = k
    · rw [if_pos hk3]
      rw [getKey_setKey_other rest k v k2 h]
      simp only [getKey]
      rw [if_neg (fun hx => h (hx.symm.trans hk3))]
    · rw [if_neg hk3]
      simp only [getKey]
      by_cases hq : k3 = k2
      · rw [if_pos hq, if_pos hq]
      · rw [if_neg hq, if_neg hq]
        exact getKey_setKey_other rest k v k2 h

lemma identOf_setStopNum (s : Stop) (n : ℕ) :
    identOf (setStopNum s n) = identOf s := rfl

lemma identOf_geminiMerge (s : Stop) (i : ℕ) :
    identOf (geminiMerge s i) = identOf s := rfl

lemma map_identOf_annotateAll : ∀ (i : ℕ) (l : List Stop),
    (annotateAll i l).map identOf = l.map identOf
  | _, [] => rfl
  | i, s :: rest => by
    simp only [annotateAll, List.map_cons, identOf_setStopNum,
      map_identOf_annotateAll (i + 1) rest]

lemma head_ident_annotateAll (i : ℕ) (l : List Stop) :
    ((annotateAll i l).head?).map identOf = (l.head?).map identOf := by
  cases l with
  | nil => rfl
  | cons s rest => simp [annotateAll, identOf_setStopNum]

lemma mapRangeGetD {α : Type} : ∀ (l : List α) (d : α),
    (List.range l.length).map (fun i => l.getD i d) = l
  | [], _ => rfl
  | a :: t, d => by
    simp only [List.length_cons, List.range_succ_eq_map, List.map_cons,
      List.getD_cons_zero, List.map_map]
    have h : ((fun i => (a :: t).getD i d) ∘ Nat.succ) = fun i => t.getD i d := by
      funext i
      simp [List.getD_cons_succ]
    rw [h, mapRangeGetD t d]

lemma fallback_perm (locs : List Stop) :
    List.Perm (fallbackOptimization locs) locs := by
  unfold fallbackOptimization
  split_ifs with h
  · exact List.Perm.refl _
  · cases locs with
    | nil => exact List.Perm.refl _
    | cons s rest =>
      exact List.Perm.cons s (nnLoopF_perm rest.length s rest (le_refl _))

lemma fallback_head (locs : List Stop) :
    (fallbackOptimization locs).head? = locs.head? := by
  unfold fallbackOptimization
  split_ifs with h
  · rfl
  · cases locs with
    | nil => rfl
    | cons s rest => rfl

lemma resOrder_fallback (key : Bool) (ai : Option Json) (locs : List Stop)
    (hlen : 2 ≤ locs.length) (hok : locs.all stopOk = true)
    (hA : aiAttempt key ai locs = none) :
    resOrder (optimizeRoute true key ai (some locs)) =
      annotateAll 0 (fallbackOptimization locs) := by
  rw [optimizeRoute_valid key ai locs hlen hok, hA]
  rfl

lemma resOrder_gemini (key : Bool) (ai : Option Json) (locs : List Stop)
    (ord : List Stop) (hlen : 2 ≤ locs.length) (hok : locs.all stopOk = true)
    (hA : aiAttempt key ai locs = some ord) :
    resOrder (optimizeRoute true key ai (some locs)) = annotateAll 0 ord := by
  rw [optimizeRoute_valid key ai locs hlen hok, hA]
  rfl

lemma aiAttempt_some_elim {key : Bool} {ai : Option Json} {locs : List Stop}
    {ord : List Stop} (hA : aiAttempt key ai locs = some ord) :
    ∃ j idxs, ai = some j ∧ jGet j "optimizedOrder" = some (Json.arr idxs) ∧
      mapOpt (mapIdxToStop locs) idxs = some ord := by
  cases key with
  | false => exact Option.noConfusion hA
  | true =>
    cases ai with
    | none => exact Option.noConfusion hA
    | some j =>
      have hA2 : (match jGet j "optimizedOrder" with
          | some (Json.arr idxs) => mapOpt (mapIdxToStop locs) idxs
          | _ => none) = some ord := hA
      cases hj : jGet j "optimizedOrder" with
      | none => rw [hj] at hA2; exact Option.noConfusion hA2
      | some v =>
        rw [hj] at hA2
        cases v with
        | num q => exact Option.noConfusion hA2
        | str s => exact Option.noConfusion hA2
        | bool b => exact Option.noConfusion hA2
        | null => exact Option.noConfusion hA2
        | arr idxs => exact ⟨j, idxs, rfl, hj, hA2⟩
        | obj fields => exact Option.noConfusion hA2

lemma mem_annotateAll : ∀ {i : ℕ} {l : List Stop} {o : Stop},
    o ∈ annotateAll i l → ∃ s ∈ l, ∃ n, o = setStopNum s n := by
  intro i l
  induction l generalizing i with
  | nil => intro o ho; cases ho
  | cons s rest ih =>
    intro o ho
    rcases List.mem_cons.mp ho with h | h
    · exact ⟨s, List.mem_cons_self s rest, i + 1, h⟩
    · obtain ⟨s2, hs2, n, hn⟩ := ih h
      exact ⟨s2, List.mem_cons_of_mem s hs2, n, hn⟩

lemma mapIdxToStop_nat (locs : List Stop) (i : ℕ) (hi : i < locs.length) :
    mapIdxToStop locs (Json.num (i : ℚ)) =
      some (geminiMerge (locs.getD i emptyStop) i) := by
  have hv : validIdx ((i : ℕ) : ℚ) locs.length := by
    refine ⟨Rat.den_natCast i, ?_, ?_⟩
    · simp [Rat.num_natCast]
    · rw [Rat.num_natCast]
      exact_mod_cast hi
  simp only [mapIdxToStop, if_pos hv, Rat.num_natCast, Int.toNat_natCast]

lemma mapIdxToStop_some_elim {locs : List Stop} {x : Json} {m : Stop}
    (h : mapIdxToStop locs x = some m) :
    ∃ q, x = Json.num q ∧ validIdx q locs.length ∧
      m = geminiMerge (locs.getD q.num.toNat emptyStop) q.num.toNat := by
  cases x with
  | num q =>
    simp only [mapIdxToStop] at h
    split_ifs at h with hv
    exact ⟨q, rfl, hv, (Option.some.inj h).symm⟩
  | str s => exact Option.noConfusion h
  | bool b => exact Option.noConfusion h
  | null => exact Option.noConfusion h
  | arr elems => exact Option.noConfusion h
  | obj fields => exact Option.noConfusion h

lemma getD_mem {l : List Stop} {i : ℕ} (h : i < l.length) :
    l.getD i emptyStop ∈ l := by
  rw [List.getD_eq_getElem _ _ h]
  exact List.getElem_mem h

/-- Claim C2 (amended): the returned order is a permutation of the input
stop identities (name, latitude, longitude) under the heuristic method
always, and under the AI method whenever the reply optimizedOrder is a
permutation of the index range 0..n-1.  As literally stated the claim is
false: the handler never checks the AI index array for being a
permutation, so an in-range non-permutation reaches the caller (see the
counterexample). -/
theorem c2_permutation_amended (key : Bool) (ai : Option Json)
    (locs : List Stop) (hlen : 2 ≤ locs.length)
    (hok : locs.all stopOk = true) :
    (aiAttempt key ai locs = none →
      List.Perm
        ((resOrder (optimizeRoute true key ai (some locs))).map identOf)
        (locs.map identOf)) ∧
      (∀ ord, aiAttempt key ai locs = some ord →
        ∀ j idxs, ai = some j →
          jGet j "optimizedOrder" = some (Json.arr idxs) →
          List.Perm idxs
            ((List.range locs.length).map fun i => Json.num ((i : ℕ) : ℚ)) →
          List.Perm
            ((resOrder (optimizeRoute true key ai (some locs))).map identOf)
            (locs.map identOf)) := by
  constructor
  · intro hA
    rw [resOrder_fallback key ai locs hlen hok hA, map_identOf_annotateAll]
    exact (fallback_perm locs).map identOf
  · intro ord hA j idxs hai hj hperm
    rw [resOrder_gemini key ai locs ord hlen hok hA, map_identOf_annotateAll]
    obtain ⟨j2, idxs2, hai2, hj2, hmap⟩ := aiAttempt_some_elim hA
    rw [hai] at hai2
    injection hai2 with hjeq
    subst hjeq
    rw [hj] at hj2
    injection hj2 with harr
    injection harr with hidx
    subst hidx
    have hforall : ∀ x ∈ idxs, mapIdxToStop locs x = some (mergeOfIdx locs x) := by
      intro x hx
      have hx2 : x ∈ (List.range locs.length).map fun i => Json.num ((i : ℕ) : ℚ) :=
        hperm.mem_iff.mp hx
      obtain ⟨i, hi, hxi⟩ := List.mem_map.mp hx2
      have hilen : i < locs.length := List.mem_range.mp hi
      rw [← hxi]
      show mapIdxToStop locs (Json.num ((i : ℕ) : ℚ)) =
        some (geminiMerge (locs.getD (((i : ℕ) : ℚ)).num.toNat emptyStop)
          (((i : ℕ) : ℚ)).num.toNat)
      simp only [Rat.num_natCast, Int.toNat_natCast]
      exact mapIdxToStop_nat locs i hilen
    have hord : ord = idxs.map (mergeOfIdx locs) := by
      have h2 := mapOpt_eq_some_of_forall hforall
      rw [hmap] at h2
      exact Option.some.inj h2
    subst hord
    rw [List.map_map]
    have hcong := hperm.map (identOf ∘ mergeOfIdx locs)
    rw [List.map_map] at hcong
    have heq : ((List.range locs.length).map
        ((identOf ∘ mergeOfIdx locs) ∘ fun i => Json.num ((i : ℕ) : ℚ))) =
        locs.map identOf := by
      have h2 : ∀ i ∈ List.range locs.length,
          ((identOf ∘ mergeOfIdx locs) ∘ fun i => Json.num ((i : ℕ) : ℚ)) i =
            (identOf ∘ fun i => locs.getD i emptyStop) i := by
        intro i _
        show identOf (mergeOfIdx locs (Json.num ((i : ℕ) : ℚ))) =
          identOf (locs.getD i emptyStop)
        show identOf (geminiMerge (locs.getD (((i : ℕ) : ℚ)).num.toNat emptyStop)
          (((i : ℕ) : ℚ)).num.toNat) = identOf (locs.getD i emptyStop)
        simp only [Rat.num_natCast, Int.toNat_natCast, identOf_geminiMerge]
      rw [List.map_congr_left h2, ← List.map_map, mapRangeGetD]
    rw [heq] at hcong
    exact hcong

/-- Counterexample to C2 as stated: for the valid request A, B and the AI
reply optimizedOrder [0, 0] — every index in range, but not a permutation —
the endpoint answers under the AI method with the order A, A: stop B is
dropped and stop A duplicated. -/
theorem c2_permutation_counter :
    resMethod (optimizeRoute true true (some aiDup) (some [demoA, demoB])) =
        some Method.gemini ∧
      ¬ List.Perm
        ((resOrder (optimizeRoute true true (some aiDup)
          (some [demoA, demoB]))).map identOf)
        (([demoA, demoB] : List Stop).map identOf) := by
  constructor
  · rfl
  · decide

/-- Witness for C2 (amended) at a concrete heuristic response. -/
theorem c2_permutation_amended_w :
    List.Perm
      ((resOrder (optimizeRoute true false none (some [demoA, demoB]))).map identOf)
      (([demoA, demoB] : List Stop).map identOf) :=
  (c2_permutation_amended false none [demoA, demoB] (by decide) (by decide)).1 rfl

/-- Claim C3 (amended): the first returned stop has the identity of the
first input stop under the heuristic method always, and under the AI
method whenever the reply optimizedOrder starts with index 0.  As
literally stated the claim is false: the handler never checks that the AI
order starts at index 0 (see the counterexample). -/
theorem c3_start_fixed_amended (key : Bool) (ai : Option Json)
    (locs : List Stop) (hlen : 2 ≤ locs.length)
    (hok : locs.all stopOk = true) :
    (aiAttempt key ai locs = none →
      ((resOrder (optimizeRoute true key ai (some locs))).head?).map identOf =
        (locs.head?).map identOf) ∧
      (∀ ord, aiAttempt key ai locs = some ord →
        ∀ j idxs, ai = some j →
          jGet j "optimizedOrder" = some (Json.arr idxs) →
          idxs.head? = some (Json.num 0) →
          ((resOrder (optimizeRoute true key ai (some locs))).head?).map identOf =
            (locs.head?).map identOf) := by
  constructor
  · intro hA
    rw [resOrder_fallback key ai locs hlen hok hA, head_ident_annotateAll,
      fallback_head]
  · intro ord hA j idxs hai hj hh
    rw [resOrder_gemini key ai locs ord hlen hok hA, head_ident_annotateAll]
    obtain ⟨j2, idxs2, hai2, hj2, hmap⟩ := aiAttempt_some_elim hA
    rw [hai] at hai2
    injection hai2 with hjeq
    subst hjeq
    rw [hj] at hj2
    injection hj2 with harr
    injection harr with hidx
    subst hidx
    cases idxs with
    | nil => cases hh
    | cons x xs =>
      have hx : x = Json.num 0 := by
        simpa using hh
      subst hx
      obtain ⟨y, ys, hord, hfy⟩ := mapOpt_head hmap
      subst hord
      have h0 : mapIdxToStop locs (Json.num 0) =
          some (geminiMerge (locs.getD 0 emptyStop) 0) := by
        have h1 := mapIdxToStop_nat locs 0 (by omega)
        simpa using h1
      rw [h0] at hfy
      have hy := Option.some.inj hfy
      cases locs with
      | nil => simp at hlen
      | cons l0 ls =>
        rw [← hy]
        simp [identOf_geminiMerge, List.getD_cons_zero]

/-- Counterexample to C3 as stated: for the valid request A, B and the AI
reply optimizedOrder [1, 0], the endpoint answers under the AI method with
first stop B — the fixed start has been reordered away from position 0. -/
theorem c3_start_fixed_counter :
    resMethod (optimizeRoute true true (some aiSwap) (some [demoA, demoB])) =
        some Method.gemini ∧
      ((resOrder (optimizeRoute true true (some aiSwap)
          (some [demoA, demoB]))).head?).map identOf ≠
        (([demoA, demoB] : List Stop).head?).map identOf := by
  constructor
  · rfl
  · decide

/-- Witness for C3 (amended) at a concrete heuristic response. -/
theorem c3_start_fixed_amended_w :
    ((resOrder (optimizeRoute true false none
        (some [demoA, demoB]))).head?).map identOf =
      (([demoA, demoB] : List Stop).head?).map identOf :=
  (c3_start_fixed_amended false none [demoA, demoB] (by decide) (by decide)).1 rfl

lemma getKey_geminiMerge_other (s : Stop) (i : ℕ) (k : String)
    (h1 : k ≠ "index") (h2 : k ≠ "id") (h3 : k ≠ "address")
    (h4 : k ≠ "quantity") (h5 : k ≠ "wasteType") (h6 : k ≠ "phone")
    (h7 : k ≠ "pickupDate") (h8 : k ≠ "pickupTime") :
    getKey (geminiMerge s i).payload k = getKey s.payload k := by
  simp only [geminiMerge]
  rw [getKey_setKey_other _ _ _ _ h8, getKey_setKey_other _ _ _ _ h7,
    getKey_setKey_other _ _ _ _ h6, getKey_setKey_other _ _ _ _ h5,
    getKey_setKey_other _ _ _ _ h4, getKey_setKey_other _ _ _ _ h3,
    getKey_setKey_other _ _ _ _ h2, getKey_setKey_other _ _ _ _ h1]

lemma getKey_geminiMerge_passthru (s : Stop) (i : ℕ) (k : String)
    (hk : k = "wasteType" ∨ k = "phone" ∨ k = "pickupDate" ∨ k = "pickupTime") :
    getKey (geminiMerge s i).payload k = some (undefD (getKey s.payload k)) := by
  simp only [geminiMerge]
  rcases hk with h | h | h | h <;> subst h
  · rw [getKey_setKey_other _ _ _ _ (by decide),
      getKey_setKey_other _ _ _ _ (by decide),
      getKey_setKey_other _ _ _ _ (by decide), getKey_setKey_same]
  · rw [getKey_setKey_other _ _ _ _ (by decide),
      getKey_setKey_other _ _ _ _ (by decide), getKey_setKey_same]
  · rw [getKey_setKey_other _ _ _ _ (by decide), getKey_setKey_same]
  · rw [getKey_setKey_same]

lemma getKey_geminiMerge_quantity (s : Stop) (i : ℕ) :
    getKey (geminiMerge s i).payload "quantity" =
      some (origOrZero (getKey s.payload "quantity")) := by
  simp only [geminiMerge]
  rw [getKey_setKey_other _ _ _ _ (by decide),
    getKey_setKey_other _ _ _ _ (by decide),
    getKey_setKey_other _ _ _ _ (by decide),
    getKey_setKey_other _ _ _ _ (by decide), getKey_setKey_same]

/-- Claim C7 (amended): both strategies keep name, lat and lon unchanged,
and every caller-supplied payload field whose key is not one of the
handler-computed keys (index, id, address, quantity, stopNumber) is
present and unchanged on the corresponding output stop; a supplied
quantity is additionally preserved whenever it is numeric.  As literally
stated the claim is false: the response map overwrites a caller-supplied
stopNumber field on both paths, and the AI merge overwrites index, id,
address and falsy non-numeric quantity values (see the counterexample). -/
theorem c7_payload_amended (key : Bool) (ai : Option Json) (locs : List Stop)
    (hlen : 2 ≤ locs.length) (hok : locs.all stopOk = true) :
    ∀ o ∈ resOrder (optimizeRoute true key ai (some locs)),
      ∃ s, s ∈ locs ∧ o.name = s.name ∧ o.lat = s.lat ∧ o.lon = s.lon ∧
        (∀ k v, k ∉ computedKeys → getKey s.payload k = some v →
          getKey o.payload k = some v) ∧
        (∀ q, getKey s.payload "quantity" = some (JsVal.num q) →
          getKey o.payload "quantity" = some (JsVal.num q)) := by
  intro o ho
  cases hA : aiAttempt key ai locs with
  | none =>
    rw [resOrder_fallback key ai locs hlen hok hA] at ho
    obtain ⟨m, hm, n, hn⟩ := mem_annotateAll ho
    subst hn
    refine ⟨m, (fallback_perm locs).subset hm, rfl, rfl, rfl, ?_, ?_⟩
    · intro k v hk hv
      have hkS : k ≠ "stopNumber" := by
        intro h
        exact hk (by rw [h]; simp [computedKeys])
      show getKey (setKey m.payload "stopNumber" (JsVal.num ((n : ℕ) : ℚ))) k =
        some v
      rw [getKey_setKey_other _ _ _ _ hkS]
      exact hv
    · intro q hq
      show getKey (setKey m.payload "stopNumber" (JsVal.num ((n : ℕ) : ℚ)))
        "quantity" = some (JsVal.num q)
      rw [getKey_setKey_other _ _ _ _ (by decide)]
      exact hq
  | some ord =>
    rw [resOrder_gemini key ai locs ord hlen hok hA] at ho
    obtain ⟨m, hm, n, hn⟩ := mem_annotateAll ho
    subst hn
    obtain ⟨j, idxs, hai, hj, hmap⟩ := aiAttempt_some_elim hA
    obtain ⟨x, hx, hfx⟩ := mapOpt_mem hmap m hm
    obtain ⟨q, hxq, hval, hme⟩ := mapIdxToStop_some_elim hfx
    subst hme
    have hmem : locs.getD q.num.toNat emptyStop ∈ locs := by
      refine getD_mem ?_
      have hp := hval.2.1
      have hl := hval.2.2
      omega
    refine ⟨locs.getD q.num.toNat emptyStop, hmem, rfl, rfl, rfl, ?_, ?_⟩
    · intro k v hk hv
      have hkS : k ≠ "stopNumber" := fun h => hk (by rw [h]; simp [computedKeys])
      have h1 : k ≠ "index" := fun h => hk (by rw [h]; simp [computedKeys])
      have h2 : k ≠ "id" := fun h => hk (by rw [h]; simp [computedKeys])
      have h3 : k ≠ "address" := fun h => hk (by rw [h]; simp [computedKeys])
      have h4 : k ≠ "quantity" := fun h => hk (by rw [h]; simp [computedKeys])
      show getKey (setKey (geminiMerge (locs.getD q.num.toNat emptyStop)
        q.num.toNat).payload "stopNumber" (JsVal.num ((n : ℕ) : ℚ))) k = some v
      rw [getKey_setKey_other _ _ _ _ hkS]
      by_cases hP : k = "wasteType" ∨ k = "phone" ∨ k = "pickupDate" ∨
        k = "pickupTime"
      · rw [getKey_geminiMerge_passthru _ _ k hP, hv]
        rfl
      · push_neg at hP
        rw [getKey_geminiMerge_other _ _ k h1 h2 h3 h4 hP.1 hP.2.1 hP.2.2.1
          hP.2.2.2]
        exact hv
    · intro q2 hq2
      show getKey (setKey (geminiMerge (locs.getD q.num.toNat emptyStop)
        q.num.toNat).payload "stopNumber" (JsVal.num ((n : ℕ) : ℚ)))
        "quantity" = some (JsVal.num q2)
      rw [getKey_setKey_other _ _ _ _ (by decide),
        getKey_geminiMerge_quantity, hq2]
      by_cases hz : q2 = 0
      · subst hz
        simp [origOrZero, truthyV]
      · simp [origOrZero, truthyV, hz]

/-- Counterexample to C7 as stated: a caller-supplied stopNumber payload
field (value 99 on the first stop) is overwritten by the response
annotation — the corresponding returned stop (same name, same position)
carries stopNumber 1. -/
theorem c7_payload_counter :
    ((resOrder (optimizeRoute true false none
        (some [demoS, demoB]))).headD emptyStop).name = demoS.name ∧
      getKey demoS.payload "stopNumber" = some (JsVal.num 99) ∧
      getKey ((resOrder (optimizeRoute true false none
        (some [demoS, demoB]))).headD emptyStop).payload "stopNumber" =
        some (JsVal.num 1) := by
  refine ⟨rfl, rfl, ?_⟩
  decide

/-- Witness for C7 (amended): the instantiation at the first returned stop
of a concrete heuristic response. -/
theorem c7_payload_amended_w :
    ∃ s, s ∈ [demoS, demoB] ∧
      (setStopNum demoS 1).name = s.name ∧
      (setStopNum demoS 1).lat = s.lat ∧
      (setStopNum demoS 1).lon = s.lon ∧
      (∀ k v, k ∉ computedKeys → getKey s.payload k = some v →
        getKey (setStopNum demoS 1).payload k = some v) ∧
      (∀ q, getKey s.payload "quantity" = some (JsVal.num q) →
        getKey (setStopNum demoS 1).payload "quantity" = some (JsVal.num q)) :=
  c7_payload_amended false none [demoS, demoB] (by decide) (by decide)
    (setStopNum demoS 1) (by decide)

/-- Claim C10: with a configured credential and a schema-valid reply whose
optimizedOrder elements are JSON numbers, any element that is not a valid
index of the input list (non-integer, negative, or out of range) makes the
index mapping throw inside the guarded attempt, so the endpoint returns
the finalized heuristic fallback; conversely, an order that reaches the
caller under the AI method had every element a valid in-range index. -/
theorem c10_invalid_index_fallback (j : Json) (idxs : List Json)
    (locs : List Stop) (hlen : 2 ≤ locs.length) (hok : locs.all stopOk = true)
    (hj : jGet j "optimizedOrder" = some (Json.arr idxs))
    (_hnum : ∀ x ∈ idxs, ∃ q, x = Json.num q) :
    ((∃ q, Json.num q ∈ idxs ∧ ¬ validIdx q locs.length) →
      optimizeRoute true true (some j) (some locs) =
        ApiResult.ok (finalize Method.fallback (fallbackOptimization locs))) ∧
      (∀ ord, aiAttempt true (some j) locs = some ord →
        ∀ q, Json.num q ∈ idxs → validIdx q locs.length) := by
  constructor
  · rintro ⟨q, hmem, hbad⟩
    have hnone : mapIdxToStop locs (Json.num q) = none := by
      simp only [mapIdxToStop]
      rw [if_neg hbad]
    have hA : aiAttempt true (some j) locs = none := by
      show (match jGet j "optimizedOrder" with
        | some (Json.arr idxs) => mapOpt (mapIdxToStop locs) idxs
        | _ => none) = none
      rw [hj]
      exact mapOpt_none_of_mem hmem hnone
    rw [optimizeRoute_valid true (some j) locs hlen hok, hA]
  · intro ord hA q hmem
    obtain ⟨j2, idxs2, hai2, hj2, hmap⟩ := aiAttempt_some_elim hA
    injection hai2 with hjeq
    subst hjeq
    rw [hj] at hj2
    injection hj2 with harr
    injection harr with hidx
    subst hidx
    obtain ⟨y, hfy⟩ := mapOpt_forall_some hmap (Json.num q) hmem
    by_contra hbad
    rw [show mapIdxToStop locs (Json.num q) = none from by
      simp only [mapIdxToStop]; rw [if_neg hbad]] at hfy
    cases hfy

/-- Witness for C10: the out-of-range reply [5, 0] on a valid two-stop
request falls back to the heuristic result. -/
theorem c10_invalid_index_fallback_w :
    optimizeRoute true true (some aiOOR) (some [demoA, demoB]) =
      ApiResult.ok (finalize Method.fallback (fallbackOptimization [demoA, demoB])) :=
  (c10_invalid_index_fallback aiOOR [Json.num 5, Json.num 0] [demoA, demoB]
    (by decide) (by decide) rfl
    (by
      intro x hx
      rcases List.mem_cons.mp hx with h | h
      · exact ⟨5, h⟩
      · rcases List.mem_cons.mp h with h2 | h2
        · exact ⟨0, h2⟩
        · cases h2)).1
    ⟨5, List.mem_cons_self _ _, by decide⟩

end W2W

